import Mathlib

/-!
Verification of the skyclaw coordinator state machine (src/src/coordinator and the
coordinator server module).

Modelling conventions for the shallow embedding:

* ISO-8601 timestamp strings (`createdAt`, `updatedAt`, `leaseExpiresAt`, ...) are
  modelled as milliseconds-since-epoch naturals.  On the fixed-width ISO format
  produced by `Date.prototype.toISOString`, lexicographic string comparison
  (`localeCompare`, `<`) coincides with numeric comparison of the encoded instants,
  and `new Date(s).getTime()` is the inverse of the encoding, so `Nat` with `≤`
  is a faithful model of both comparison styles used by the source.
* JavaScript `Map` objects are modelled as insertion-ordered lists of records;
  `Map.get` is `List.find?` on the id and `Map.set` replaces the entry in place
  (`setById`).
* `Array.prototype.sort` with a comparator is, per the ECMAScript specification, a
  stable sort; every stable sort computes the same list for a total preorder
  comparator, so it is modelled by the stable `List.insertionSort`.
* `JSON` payload blobs that the coordinator never inspects are modelled as opaque
  strings; SHA-256 and body canonicalization are modelled as an abstract hash
  function parameter applied to `route ++ "\n" ++ canonicalBody`, mirroring
  `hashIdempotencyRequest`.
* Thrown exceptions are modelled with `Except String`; functions that mutate
  `this` take and return an explicit `CoordinatorState`.  `Date.now()` is an
  explicit `now : Nat` argument.
* The durable SQLite mirror writes the touched entity on every mutation and is
  replaced wholesale by `restore`, so it always coincides with the in-memory maps;
  it is therefore not modelled separately.
-/

namespace Skyclaw

/-- Job lifecycle states, from `types.ts` (`JobStatus`). -/
inductive JobStatus where
  | queued
  | leased
  | completed
  | failed
deriving DecidableEq

/-- Service / assignment states, from `types.ts` (`ServiceStatus`). -/
inductive ServiceStatus where
  | pending
  | running
  | failed
deriving DecidableEq

/-- `String.prototype.trim`: strip whitespace from both ends.  (Implemented on the
character list so that it evaluates by kernel reduction; `String.trim` itself is
definitionally equal but reduction-opaque.) -/
def trimStr (s : String) : String :=
  String.mk ((((s.data.dropWhile Char.isWhitespace).reverse).dropWhile Char.isWhitespace).reverse)

/-- `util.ts` `hasCapabilities`: every required capability is contained in the
host capability set. -/
def hasCapabilities (hostCapabilities : List String) (required : List String) : Bool :=
  required.all (fun cap => hostCapabilities.contains cap)

/-- First-occurrence deduplication, the semantics of `[...new Set(xs)]`. -/
def dedupFirst (l : List String) : List String :=
  l.foldl (fun acc c => if acc.contains c then acc else acc ++ [c]) []

/-- `util.ts` `normalizeCapabilities`: trim, drop empties, dedupe, sort. -/
def normalizeCapabilities (caps : Option (List String)) : List String :=
  match caps with
  | none => []
  | some cs =>
    if cs.isEmpty then []
    else List.insertionSort (fun a b : String => a ≤ b)
      (dedupFirst ((cs.map trimStr).filter (fun c => c != "")))

/-- `Map.set` on a list-modelled map: replace the entry with the same id in place,
or append a fresh entry. -/
def setById {α : Type} (getId : α → String) : List α → α → List α
  | [], r => [r]
  | x :: rest, r => if getId x == getId r then r :: rest else x :: setById getId rest r

/-- The version metadata triple read by `shouldAdopt` (fields may be absent on
records arriving from peers; hosts have no `updatedAt` at all). -/
structure VersionMeta where
  version : Option Nat
  updatedAt : Option Nat
  updatedBy : Option String
deriving DecidableEq

/-- `shouldAdopt` (replication-policy module): compare `version`, tiebreak by
`updatedAt`, tiebreak by `updatedBy`; missing `version` counts as 0, missing
strings as `""` (timestamp model: 0). -/
def shouldAdopt (loc incoming : VersionMeta) : Bool :=
  let localVersion := loc.version.getD 0
  let incomingVersion := incoming.version.getD 0
  if incomingVersion ≠ localVersion then decide (localVersion < incomingVersion)
  else
    let localUpdatedAt := loc.updatedAt.getD 0
    let incomingUpdatedAt := incoming.updatedAt.getD 0
    if incomingUpdatedAt ≠ localUpdatedAt then decide (localUpdatedAt < incomingUpdatedAt)
    else decide ((loc.updatedBy.getD ("")) < (incoming.updatedBy.getD ("")))

/-- The key on which `shouldAdopt` is a strict lexicographic comparison. -/
def metaKey (m : VersionMeta) : Nat ×ₗ (Nat ×ₗ String) :=
  toLex (m.version.getD 0, toLex (m.updatedAt.getD 0, m.updatedBy.getD ("")))

/-- `types.ts` `HostRecord`. -/
structure HostRecord where
  id : String
  name : String
  capabilities : List String
  maxParallel : Nat
  activeLeases : Nat
  lastSeenAt : Nat
  registeredAt : Nat
  updatedBy : String
  version : Nat
deriving DecidableEq

/-- `types.ts` `JobRequirement`. -/
structure JobRequirement where
  requiredCapabilities : List String
deriving DecidableEq

/-- `types.ts` job `result` object. -/
structure JobResult where
  finishedAt : Nat
  durationMs : Nat
  exitCode : Int
  stdout : String
  stderr : String
deriving DecidableEq

/-- `types.ts` `JobRecord`.  The payload is an opaque blob the coordinator never
inspects. -/
structure JobRecord where
  id : String
  createdAt : Nat
  updatedAt : Nat
  updatedBy : String
  version : Nat
  status : JobStatus
  attempts : Nat
  leaseExpiresAt : Option Nat
  assignedHostId : Option String
  requirement : JobRequirement
  payload : String
  submittedBy : Option String
  result : Option JobResult
  error : Option String
deriving DecidableEq

/-- `types.ts` service assignment entry. -/
structure Assignment where
  hostId : String
  status : ServiceStatus
  endpoint : Option String
  error : Option String
  startedAt : Option Nat
  updatedAt : Nat
deriving DecidableEq

/-- `types.ts` `ServiceRecord`. -/
structure ServiceRecord where
  id : String
  name : String
  command : String
  args : List String
  cwd : Option String
  env : Option (List (String × String))
  replicas : Nat
  requiredCapabilities : List String
  status : ServiceStatus
  createdAt : Nat
  updatedAt : Nat
  updatedBy : String
  version : Nat
  assignments : List Assignment
deriving DecidableEq

/-- The in-memory coordinator state (`CoordinatorState` class fields).  `nodeId`
and `leaseMs` are the readonly constructor options; the three maps are modelled
as insertion-ordered lists. -/
structure CoordinatorState where
  nodeId : String
  leaseMs : Nat
  hosts : List HostRecord
  jobs : List JobRecord
  services : List ServiceRecord
  nextVersion : Nat
deriving DecidableEq

/-- `types.ts` `CoordinatorSnapshot` (the full transferable state). -/
structure CoordinatorSnapshot where
  nodeId : String
  hosts : List HostRecord
  jobs : List JobRecord
  services : List ServiceRecord
deriving DecidableEq

/-- Version metadata of a host as `shouldAdopt` sees it (hosts carry no
`updatedAt` field, so that tiebreak always reads the default). -/
def hostMeta (h : HostRecord) : VersionMeta :=
  { version := some h.version, updatedAt := none, updatedBy := some h.updatedBy }

/-- Version metadata of a job as `shouldAdopt` sees it. -/
def jobMeta (j : JobRecord) : VersionMeta :=
  { version := some j.version, updatedAt := some j.updatedAt, updatedBy := some j.updatedBy }

/-- Version metadata of a service as `shouldAdopt` sees it. -/
def serviceMeta (x : ServiceRecord) : VersionMeta :=
  { version := some x.version, updatedAt := some x.updatedAt, updatedBy := some x.updatedBy }

/-- One `mergeSnapshot` loop: walk the incoming records, adopting each one when
there is no local copy or `shouldAdopt` prefers the incoming copy; adoption
raises `nextVersion` to at least `adopted.version + 1` and flags `changed`. -/
def mergeList {α : Type} (getId : α → String) (getMeta : α → VersionMeta) :
    List α → List α → Nat → Bool → List α × Nat × Bool
  | [], recs, nextV, changed => (recs, nextV, changed)
  | r :: rest, recs, nextV, changed =>
    match recs.find? (fun x => getId x == getId r) with
    | none =>
      mergeList getId getMeta rest (setById getId recs r)
        (max nextV ((getMeta r).version.getD 0 + 1)) true
    | some cur =>
      if shouldAdopt (getMeta cur) (getMeta r) then
        mergeList getId getMeta rest (setById getId recs r)
          (max nextV ((getMeta r).version.getD 0 + 1)) true
      else
        mergeList getId getMeta rest recs nextV changed

/-- The guard of each `mergeSnapshot` loop iteration:
`!current || shouldAdopt(current, incoming)`. -/
def adoptsIncoming {α : Type} (getMeta : α → VersionMeta) (cur : Option α) (r : α) : Bool :=
  match cur with
  | none => true
  | some c => shouldAdopt (getMeta c) (getMeta r)

/-- `CoordinatorState.mergeSnapshot`: merge incoming hosts, jobs and services in
turn, returning the new state and the `changed` flag. -/
def mergeSnapshot (s : CoordinatorState) (snap : CoordinatorSnapshot) :
    CoordinatorState × Bool :=
  let m1 := mergeList HostRecord.id hostMeta snap.hosts s.hosts s.nextVersion false
  let m2 := mergeList JobRecord.id jobMeta snap.jobs s.jobs m1.2.1 m1.2.2
  let m3 := mergeList ServiceRecord.id serviceMeta snap.services s.services m2.2.1 m2.2.2
  ({ s with hosts := m1.1, jobs := m2.1, services := m3.1, nextVersion := m3.2.1 }, m3.2.2)

/-- Creation-time order used by the `sort` calls on jobs. -/
def jobLe (a b : JobRecord) : Prop := a.createdAt ≤ b.createdAt

instance : DecidableRel jobLe := fun a b => Nat.decLe a.createdAt b.createdAt

instance : IsTotal JobRecord jobLe := ⟨fun a b => Nat.le_total a.createdAt b.createdAt⟩

instance : IsTrans JobRecord jobLe := ⟨fun _ _ _ h1 h2 => Nat.le_trans h1 h2⟩

/-- Creation-time order used by the `sort` calls on services. -/
def serviceLe (a b : ServiceRecord) : Prop := a.createdAt ≤ b.createdAt

instance : DecidableRel serviceLe := fun a b => Nat.decLe a.createdAt b.createdAt

instance : IsTotal ServiceRecord serviceLe := ⟨fun a b => Nat.le_total a.createdAt b.createdAt⟩

instance : IsTrans ServiceRecord serviceLe := ⟨fun _ _ _ h1 h2 => Nat.le_trans h1 h2⟩

/-- `CoordinatorState.snapshotInternal`: deep copy with jobs and services ordered
by `createdAt` (a stable sort; hosts keep map order). -/
def snapshotInternal (s : CoordinatorState) : CoordinatorSnapshot :=
  { nodeId := s.nodeId
    hosts := s.hosts
    jobs := List.insertionSort jobLe s.jobs
    services := List.insertionSort serviceLe s.services }

/-- `CoordinatorState.checkpoint`: a snapshot without the lease sweep. -/
def checkpoint (s : CoordinatorState) : CoordinatorSnapshot :=
  snapshotInternal s

/-- `Math.max(0, ...versions)`. -/
def listMaxVersion (l : List Nat) : Nat := l.foldr max 0

/-- The largest version number present anywhere in the state. -/
def stateMaxVersion (s : CoordinatorState) : Nat :=
  max (max (listMaxVersion (s.hosts.map HostRecord.version))
           (listMaxVersion (s.jobs.map JobRecord.version)))
      (listMaxVersion (s.services.map ServiceRecord.version))

/-- `CoordinatorState.restore`: clear the maps, repopulate from the snapshot, and
recompute `nextVersion = max(all persisted versions) + 1`.  (The durable mirror
is replaced with exactly the same records by `replaceAll`.) -/
def restore (s : CoordinatorState) (snap : CoordinatorSnapshot) : CoordinatorState :=
  { s with
    hosts := snap.hosts
    jobs := snap.jobs
    services := snap.services
    nextVersion :=
      max (max (listMaxVersion (snap.hosts.map HostRecord.version))
               (listMaxVersion (snap.jobs.map JobRecord.version)))
          (listMaxVersion (snap.services.map ServiceRecord.version)) + 1 }

/-- The guard of the lease sweeper: `status === "leased"`, `leaseExpiresAt` set,
and `new Date(leaseExpiresAt).getTime() <= now`. -/
def isExpiredLeased (j : JobRecord) (now : Nat) : Bool :=
  match j.status, j.leaseExpiresAt with
  | JobStatus.leased, some t => decide (t ≤ now)
  | _, _ => false

/-- The host-side effect of requeueing one job: look up the previously assigned
host and, when it exists with a positive lease count, decrement `activeLeases`
and touch it (`touchHost`: version bump, `updatedBy`). -/
def decHostForJob (hosts : List HostRecord) (v : Nat) (nodeId : String)
    (assignedHostId : Option String) : List HostRecord × Nat :=
  match assignedHostId with
  | none => (hosts, v)
  | some hid =>
    match hosts.find? (fun h => h.id == hid) with
    | none => (hosts, v)
    | some host =>
      if 0 < host.activeLeases then
        (setById HostRecord.id hosts
          { host with activeLeases := host.activeLeases - 1, version := v, updatedBy := nodeId },
         v + 1)
      else (hosts, v)

/-- The body of the `requeueExpiredLeases` loop over the jobs map, threading the
hosts map, the version counter and the requeue count. -/
def requeueGo (nodeId : String) (now : Nat) :
    List JobRecord → List HostRecord → Nat → List JobRecord × List HostRecord × Nat × Nat
  | [], hosts, v => ([], hosts, v, 0)
  | j :: rest, hosts, v =>
    if isExpiredLeased j now then
      match decHostForJob hosts v nodeId j.assignedHostId with
      | (hosts1, v1) =>
        let j' := { j with
          status := JobStatus.queued
          assignedHostId := none
          leaseExpiresAt := none
          updatedAt := now
          version := v1
          updatedBy := nodeId }
        match requeueGo nodeId now rest hosts1 (v1 + 1) with
        | (rest', hosts2, v2, n) => (j' :: rest', hosts2, v2, n + 1)
    else
      match requeueGo nodeId now rest hosts v with
      | (rest', hosts', v', n) => (j :: rest', hosts', v', n)

/-- `CoordinatorState.requeueExpiredLeases`: return every expired leased job to
`queued`, clear its assignment, decrement the assigned host's lease count
(floor 0), and report how many jobs were requeued. -/
def requeueExpiredLeases (s : CoordinatorState) (now : Nat) : CoordinatorState × Nat :=
  match requeueGo s.nodeId now s.jobs s.hosts s.nextVersion with
  | (jobs', hosts', v', n) =>
    ({ s with jobs := jobs', hosts := hosts', nextVersion := v' }, n)

/-- `CoordinatorState.claimJob`: sweep expired leases, then lease the earliest
eligible queued job to the host. -/
def claimJob (s0 : CoordinatorState) (hostId : String) (now : Nat) :
    Except String (Option JobRecord × CoordinatorState) :=
  let s := (requeueExpiredLeases s0 now).1
  match s.hosts.find? (fun h => h.id == hostId) with
  | none => Except.error ("unknown host: " ++ hostId)
  | some host =>
    if host.maxParallel ≤ host.activeLeases then Except.ok (none, s)
    else
      let queued := List.insertionSort jobLe
        (s.jobs.filter (fun j => j.status == JobStatus.queued))
      match queued.find? (fun j =>
          hasCapabilities host.capabilities j.requirement.requiredCapabilities) with
      | none => Except.ok (none, s)
      | some next =>
        let next' := { next with
          status := JobStatus.leased
          attempts := next.attempts + 1
          assignedHostId := some hostId
          leaseExpiresAt := some (now + s.leaseMs)
          updatedAt := now
          version := s.nextVersion
          updatedBy := s.nodeId }
        let host' := { host with
          activeLeases := host.activeLeases + 1
          version := s.nextVersion + 1
          updatedBy := s.nodeId }
        Except.ok (some next',
          { s with
            jobs := setById JobRecord.id s.jobs next'
            hosts := setById HostRecord.id s.hosts host'
            nextVersion := s.nextVersion + 2 })

/-- `types.ts` `CompleteJobRequest`. -/
structure CompleteJobRequest where
  hostId : String
  success : Bool
  durationMs : Nat
  exitCode : Int
  stdout : String
  stderr : String
  error : Option String
deriving DecidableEq

/-- `CoordinatorState.completeJob`: validate host, job, assignment and lease
state, then record the result; every `throw` happens before any field is
written, so the state component is returned untouched on error. -/
def completeJob (s : CoordinatorState) (jobId : String) (input : CompleteJobRequest)
    (now : Nat) : Except String JobRecord × CoordinatorState :=
  match s.hosts.find? (fun h => h.id == input.hostId) with
  | none => (Except.error ("unknown host: " ++ input.hostId), s)
  | some host =>
    match s.jobs.find? (fun j => j.id == jobId) with
    | none => (Except.error ("unknown job: " ++ jobId), s)
    | some job =>
      if job.assignedHostId ≠ some input.hostId then
        (Except.error ("job " ++ jobId ++ " is assigned to " ++
          (job.assignedHostId.getD ("nobody"))), s)
      else if job.status ≠ JobStatus.leased then
        (Except.error ("job " ++ jobId ++ " is not leased"), s)
      else
        let job' := { job with
          status := if input.success then JobStatus.completed else JobStatus.failed
          result := some
            { finishedAt := now
              durationMs := input.durationMs
              exitCode := input.exitCode
              stdout := input.stdout
              stderr := input.stderr }
          error := input.error
          leaseExpiresAt := none
          updatedAt := now
          version := s.nextVersion
          updatedBy := s.nodeId }
        let host' := { host with
          activeLeases := if 0 < host.activeLeases then host.activeLeases - 1
                          else host.activeLeases
          version := s.nextVersion + 1
          updatedBy := s.nodeId }
        (Except.ok job',
         { s with
           jobs := setById JobRecord.id s.jobs job'
           hosts := setById HostRecord.id s.hosts host'
           nextVersion := s.nextVersion + 2 })

/-- `types.ts` `ServiceDeployRequest`. -/
structure ServiceDeployRequest where
  serviceId : Option String
  name : String
  command : String
  args : Option (List String)
  cwd : Option String
  env : Option (List (String × String))
  replicas : Option Nat
  requiredCapabilities : Option (List String)
deriving DecidableEq

/-- `CoordinatorState.deployService`: create a `pending` service with no
assignments; capabilities default to `["service-host"]`, replicas clamp to ≥ 1.
`freshId` stands for the minted `svc_<uuid>` used when no id is supplied. -/
def deployService (s : CoordinatorState) (input : ServiceDeployRequest) (now : Nat)
    (freshId : String) : ServiceRecord × CoordinatorState :=
  let id := match input.serviceId with
    | some sid => if trimStr sid == "" then freshId else trimStr sid
    | none => freshId
  let record : ServiceRecord :=
    { id := id
      name := trimStr input.name
      command := trimStr input.command
      args := input.args.getD []
      cwd := input.cwd
      env := input.env
      replicas := max 1 (input.replicas.getD 1)
      requiredCapabilities := normalizeCapabilities (some (input.requiredCapabilities.getD ["service-host"]))
      status := ServiceStatus.pending
      createdAt := now
      updatedAt := now
      updatedBy := s.nodeId
      version := s.nextVersion
      assignments := [] }
  (record,
   { s with
     services := setById ServiceRecord.id s.services record
     nextVersion := s.nextVersion + 1 })

/-- The scan inside `CoordinatorState.claimService` over the capability-eligible
services in creation order. -/
def claimServiceGo (s : CoordinatorState) (hostId : String) (now : Nat) :
    List ServiceRecord → Except String (Option ServiceRecord × CoordinatorState)
  | [] => Except.ok (none, s)
  | service :: rest =>
    match service.assignments.find? (fun a => a.hostId == hostId) with
    | some existing =>
      if existing.status = ServiceStatus.failed then claimServiceGo s hostId now rest
      else Except.ok (some service, s)
    | none =>
      if service.replicas ≤ service.assignments.length then claimServiceGo s hostId now rest
      else
        let service' := { service with
          assignments := service.assignments ++
            [{ hostId := hostId
               status := ServiceStatus.pending
               endpoint := none
               error := none
               startedAt := none
               updatedAt := now }]
          updatedAt := now
          version := s.nextVersion
          updatedBy := s.nodeId }
        Except.ok (some service',
          { s with
            services := setById ServiceRecord.id s.services service'
            nextVersion := s.nextVersion + 1 })

/-- `CoordinatorState.claimService`: give the host its existing non-failed
assignment, or append a fresh `pending` assignment where replica capacity
remains.  The service `status` field is not recomputed here. -/
def claimService (s : CoordinatorState) (hostId : String) (now : Nat) :
    Except String (Option ServiceRecord × CoordinatorState) :=
  match s.hosts.find? (fun h => h.id == hostId) with
  | none => Except.error ("unknown host: " ++ hostId)
  | some host =>
    claimServiceGo s hostId now
      (List.insertionSort serviceLe
        (s.services.filter (fun svc => hasCapabilities host.capabilities svc.requiredCapabilities)))

/-- `types.ts` `ServiceReportRequest`. -/
structure ServiceReportRequest where
  hostId : String
  status : ServiceStatus
  endpoint : Option String
  error : Option String
deriving DecidableEq

/-- The update `reportService` applies to the matching assignment: overwrite
status, endpoint, error and `updatedAt`, and set `startedAt` on the first
transition to `running`. -/
def reportServiceAssignment (a : Assignment) (input : ServiceReportRequest)
    (now : Nat) : Assignment :=
  let a1 := { a with
    status := input.status
    endpoint := input.endpoint
    error := input.error
    updatedAt := now }
  if input.status = ServiceStatus.running ∧ a.startedAt = none then
    { a1 with startedAt := some now }
  else a1

/-- Apply `reportServiceAssignment` to the first assignment with the reporting
host id (the one `find?` returns and the source mutates in place). -/
def updateAssignments (input : ServiceReportRequest) (now : Nat) :
    List Assignment → List Assignment
  | [] => []
  | a :: rest =>
    if a.hostId == input.hostId then reportServiceAssignment a input now :: rest
    else a :: updateAssignments input now rest

/-- The service-status aggregate recomputed at the end of `reportService`:
`running` if any assignment is running, else `pending` if any is pending, else
`failed`. -/
def derivedServiceStatus (assignments : List Assignment) : ServiceStatus :=
  if assignments.any (fun a => a.status == ServiceStatus.running) then ServiceStatus.running
  else if assignments.any (fun a => a.status == ServiceStatus.pending) then ServiceStatus.pending
  else ServiceStatus.failed

/-- `CoordinatorState.reportService`: update the matching assignment and
recompute the service status from the assignment aggregate. -/
def reportService (s : CoordinatorState) (serviceId : String)
    (input : ServiceReportRequest) (now : Nat) :
    Except String ServiceRecord × CoordinatorState :=
  match s.services.find? (fun x => x.id == serviceId) with
  | none => (Except.error ("unknown service: " ++ serviceId), s)
  | some service =>
    match service.assignments.find? (fun a => a.hostId == input.hostId) with
    | none =>
      (Except.error ("service " ++ serviceId ++ " is not assigned to host " ++ input.hostId), s)
    | some _ =>
      let assignments' := updateAssignments input now service.assignments
      let service' := { service with
        assignments := assignments'
        status := derivedServiceStatus assignments'
        updatedAt := now
        version := s.nextVersion
        updatedBy := s.nodeId }
      (Except.ok service',
       { s with
         services := setById ServiceRecord.id s.services service'
         nextVersion := s.nextVersion + 1 })

/-- Outcome of `applyMutationWithQuorum`: the committed value, the
`{ok:false,error}` return, or a rethrown exception. -/
inductive QuorumResult (α : Type) where
  | ok (value : α)
  | quorumError (msg : String)
  | thrown (msg : String)
deriving DecidableEq

/-- How many peers answered 2xx to the snapshot push. -/
def countAcks (peerAcks : List Bool) : Nat := (peerAcks.filter (fun b => b)).length

/-- `applyMutationWithQuorum` (coordinator server module): fail fast when the
known peer set is smaller than the required ack count; otherwise checkpoint,
apply the mutation, push a fresh snapshot to every peer (`state.snapshot()`
sweeps expired leases first when there are peers to push to), and restore the
checkpoint when fewer than `requiredPeerAcks` peers acked or when the mutation
threw.  `peerAcks` records the per-peer 2xx outcome of the push. -/
def applyMutationWithQuorum {α : Type} (s : CoordinatorState) (peerAcks : List Bool)
    (requiredPeerAcks : Nat) (now : Nat)
    (mutate : CoordinatorState → Except String (α × CoordinatorState)) :
    QuorumResult α × CoordinatorState :=
  if peerAcks.length < requiredPeerAcks then
    (QuorumResult.quorumError
      ("insufficient peers: requires at least " ++ toString requiredPeerAcks ++
       " known peers, got " ++ toString peerAcks.length), s)
  else
    let cp := checkpoint s
    match mutate s with
    | Except.error e => (QuorumResult.thrown e, restore s cp)
    | Except.ok (value, s1) =>
      let s2 := if peerAcks.isEmpty then s1 else (requeueExpiredLeases s1 now).1
      if countAcks peerAcks < requiredPeerAcks then
        (QuorumResult.quorumError
          ("replication target not met: required " ++ toString requiredPeerAcks ++
           " peer acks, got " ++ toString (countAcks peerAcks)), restore s2 cp)
      else (QuorumResult.ok value, s2)

/-- `storage.ts` `StoredIdempotencyRecord`; `responseJson` is the serialized
response body (replayed verbatim through `JSON.parse ∘ JSON.stringify`). -/
structure StoredIdempotencyRecord where
  route : String
  key : String
  requestHash : String
  statusCode : Nat
  responseJson : String
  createdAt : Nat
  expiresAt : Nat
deriving DecidableEq

/-- The idempotency ledger (the `(route, key)`-keyed SQLite table). -/
def getIdempotency (ledger : List StoredIdempotencyRecord) (route key : String) :
    Option StoredIdempotencyRecord :=
  ledger.find? (fun r => r.route == route && r.key == key)

/-- Upsert on the `(route, key)` primary key. -/
def saveIdempotency (ledger : List StoredIdempotencyRecord)
    (record : StoredIdempotencyRecord) : List StoredIdempotencyRecord :=
  if ledger.any (fun r => r.route == record.route && r.key == record.key) then
    ledger.map (fun r =>
      if r.route == record.route && r.key == record.key then record else r)
  else ledger ++ [record]

/-- `readIdempotencyKey`: the trimmed `x-idempotency-key` header, absent when the
header is missing or blank. -/
def readIdempotencyKey (raw : Option String) : Option String :=
  match raw with
  | none => none
  | some k => if trimStr k == "" then none else some (trimStr k)

/-- `hashIdempotencyRequest`: SHA-256 of `route + "\n" + canonical body`.  The
hash itself is an abstract function parameter; the canonicalized body is a
string input. -/
def hashIdempotencyRequest (sha256 : String → String) (route canonical : String) : String :=
  sha256 (route ++ "\n" ++ canonical)

/-- Outcome of `applyIdempotentMutation` as the router sees it: `ok` carries the
HTTP status and serialized body, `error` maps to 503, `conflict` to 409. -/
inductive AppliedOutcome where
  | ok (statusCode : Nat) (body : String)
  | error (msg : String)
  | conflict (msg : String)
deriving DecidableEq

/-- `applyIdempotentMutation` (coordinator server module).  `σ` is the machine
state the wrapped mutation (`applyMutationWithQuorum` plus the state op) acts
on; `mutate` returns the replication outcome and the possibly-changed state. -/
def applyIdempotentMutation {σ α : Type} (sha256 : String → String)
    (rawKey : Option String) (route : String) (canonicalBody : String)
    (ttlMs now : Nat) (ledger : List StoredIdempotencyRecord) (s : σ)
    (mutate : σ → Except String α × σ) (toResponseBody : α → String) :
    AppliedOutcome × σ × List StoredIdempotencyRecord :=
  match readIdempotencyKey rawKey with
  | none =>
    match mutate s with
    | (Except.error e, s') => (AppliedOutcome.error e, s', ledger)
    | (Except.ok v, s') => (AppliedOutcome.ok 200 (toResponseBody v), s', ledger)
  | some key =>
    let requestHash := hashIdempotencyRequest sha256 route canonicalBody
    match getIdempotency ledger route key with
    | some existing =>
      if existing.requestHash ≠ requestHash then
        (AppliedOutcome.conflict ("idempotency key reuse conflict for route " ++ route),
         s, ledger)
      else
        (AppliedOutcome.ok existing.statusCode existing.responseJson, s, ledger)
    | none =>
      match mutate s with
      | (Except.error e, s') => (AppliedOutcome.error e, s', ledger)
      | (Except.ok v, s') =>
        let body := toResponseBody v
        (AppliedOutcome.ok 200 body, s',
         saveIdempotency ledger
           { route := route, key := key, requestHash := requestHash, statusCode := 200
             responseJson := body, createdAt := now, expiresAt := now + ttlMs })

/-- A configured public API key rule (coordinator server module). -/
structure PublicApiKey where
  key : String
  label : Option String
  allowedCapabilities : Option (List String)
  allowShell : Bool
deriving DecidableEq

/-- `resolvePublicApiKey`: match the presented bearer / `x-api-key` credential
against the configured rules. -/
def resolvePublicApiKey (provided : Option String) (rules : List PublicApiKey) :
    Option PublicApiKey :=
  if rules.isEmpty then none
  else
    match provided with
    | none => none
    | some k => rules.find? (fun rule => rule.key == k)

/-- `toPublicSubmitterId`: the tenant identity of a public key is
`public:<label>`, falling back to `public:anonymous` when the label is missing
or empty. -/
def toPublicSubmitterId (apiKey : PublicApiKey) : String :=
  "public:" ++ (if apiKey.label.getD ("") == "" then ("anonymous") else apiKey.label.getD (""))

/-- The public job view: a `JobRecord` with `submittedBy` elided. -/
structure PublicJobView where
  id : String
  createdAt : Nat
  updatedAt : Nat
  updatedBy : String
  version : Nat
  status : JobStatus
  attempts : Nat
  leaseExpiresAt : Option Nat
  assignedHostId : Option String
  requirement : JobRequirement
  payload : String
  result : Option JobResult
  error : Option String
deriving DecidableEq

/-- `toPublicJobResponse`: drop `submittedBy`, keep every other field. -/
def toPublicJobResponse (j : JobRecord) : PublicJobView :=
  { id := j.id
    createdAt := j.createdAt
    updatedAt := j.updatedAt
    updatedBy := j.updatedBy
    version := j.version
    status := j.status
    attempts := j.attempts
    leaseExpiresAt := j.leaseExpiresAt
    assignedHostId := j.assignedHostId
    requirement := j.requirement
    payload := j.payload
    result := j.result
    error := j.error }

/-- Result of `GET /v1/public/jobs/:id` once a key has been resolved. -/
inductive PublicJobGetResult where
  | notFound
  | ok (job : PublicJobView)
deriving DecidableEq

/-- The `GET /v1/public/jobs/:id` handler body: look the job up, answer 404 when
it is missing or its `submittedBy` differs from the caller key's tenant
identity, and otherwise return the job with `submittedBy` elided. -/
def publicJobGetHandler (s : CoordinatorState) (apiKey : PublicApiKey)
    (jobId : String) : PublicJobGetResult :=
  match s.jobs.find? (fun j => j.id == jobId) with
  | none => PublicJobGetResult.notFound
  | some job =>
    if job.submittedBy ≠ some (toPublicSubmitterId apiKey) then PublicJobGetResult.notFound
    else PublicJobGetResult.ok (toPublicJobResponse job)

deriving instance DecidableEq for Except

/-! Section: Concrete fixtures used to evaluate the definitions on closed inputs -/

/-- A registered host offering the `service-host` capability. -/
def exHostA : HostRecord :=
  { id := "hA", name := "alpha", capabilities := ["service-host"], maxParallel := 1
    activeLeases := 0, lastSeenAt := 0, registeredAt := 0, updatedBy := "node-a", version := 1 }

/-- A worker host offering `shell` and `openclaw`. -/
def exHostW : HostRecord :=
  { id := "hW", name := "worker", capabilities := ["openclaw", "shell"], maxParallel := 2
    activeLeases := 0, lastSeenAt := 0, registeredAt := 0, updatedBy := "node-a", version := 1 }

/-- A queued job requiring `openclaw`. -/
def exJobQ : JobRecord :=
  { id := "j1", createdAt := 10, updatedAt := 10, updatedBy := "node-a", version := 2
    status := JobStatus.queued, attempts := 0, leaseExpiresAt := none, assignedHostId := none
    requirement := { requiredCapabilities := ["openclaw"] }, payload := "openclaw-run"
    submittedBy := none, result := none, error := none }

/-- A leased job assigned to `hW` whose lease expires at t = 100. -/
def exJobL : JobRecord :=
  { id := "j2", createdAt := 20, updatedAt := 30, updatedBy := "node-a", version := 3
    status := JobStatus.leased, attempts := 1, leaseExpiresAt := some 100
    assignedHostId := some ("hW")
    requirement := { requiredCapabilities := [] }, payload := "shell"
    submittedBy := none, result := none, error := none }

/-- A service whose single assignment (on host `hB`) has failed, with spare
replica capacity. -/
def exSvcFailed : ServiceRecord :=
  { id := "svc1", name := "api", command := "node", args := [], cwd := none, env := none
    replicas := 2, requiredCapabilities := ["service-host"], status := ServiceStatus.failed
    createdAt := 0, updatedAt := 0, updatedBy := "node-a", version := 2
    assignments := [{ hostId := "hB", status := ServiceStatus.failed, endpoint := none
                      error := none, startedAt := none, updatedAt := 0 }] }

/-- A service with a `pending` assignment on host `hA`. -/
def exSvcPending : ServiceRecord :=
  { id := "svc2", name := "web", command := "node", args := [], cwd := none, env := none
    replicas := 1, requiredCapabilities := ["service-host"], status := ServiceStatus.pending
    createdAt := 0, updatedAt := 0, updatedBy := "node-a", version := 2
    assignments := [{ hostId := "hA", status := ServiceStatus.pending, endpoint := none
                      error := none, startedAt := none, updatedAt := 0 }] }

/-- A deploy request leaving every optional field to its default. -/
def exDeployInput : ServiceDeployRequest :=
  { serviceId := none, name := "ts-api", command := "node", args := none, cwd := none
    env := none, replicas := none, requiredCapabilities := none }

/-- Coordinator state with one service-capable host and the failed-assignment
service. -/
def exStateSvc : CoordinatorState :=
  { nodeId := "node-a", leaseMs := 60000, hosts := [exHostA], jobs := []
    services := [exSvcFailed], nextVersion := 3 }

/-- Coordinator state with one service-capable host and the pending-assignment
service. -/
def exStateSvcPending : CoordinatorState :=
  { nodeId := "node-a", leaseMs := 60000, hosts := [exHostA], jobs := []
    services := [exSvcPending], nextVersion := 3 }

/-- Coordinator state with a worker host and one queued job. -/
def exStateJobs : CoordinatorState :=
  { nodeId := "node-a", leaseMs := 60000, hosts := [exHostW], jobs := [exJobQ]
    services := [], nextVersion := 3 }

/-- Coordinator state already containing `exHostA` (used to replay a stale
snapshot). -/
def exStateHostOnly : CoordinatorState :=
  { nodeId := "node-a", leaseMs := 60000, hosts := [exHostA], jobs := []
    services := [], nextVersion := 2 }

/-- The empty coordinator state of a fresh node. -/
def exStateEmpty : CoordinatorState :=
  { nodeId := "node-a", leaseMs := 60000, hosts := [], jobs := [], services := []
    nextVersion := 1 }

/-- Two distinct public API keys sharing the label `"acme"`. -/
def exKey1 : PublicApiKey :=
  { key := "k1", label := some ("acme"), allowedCapabilities := none, allowShell := false }

/-- Second key with the same label as `exKey1`. -/
def exKey2 : PublicApiKey :=
  { key := "k2", label := some ("acme"), allowedCapabilities := none, allowShell := false }

/-- A job submitted through the public surface under `exKey1`
(`submittedBy = toPublicSubmitterId exKey1`). -/
def exJobPublic : JobRecord :=
  { id := "jp", createdAt := 10, updatedAt := 10, updatedBy := "node-a", version := 2
    status := JobStatus.queued, attempts := 0, leaseExpiresAt := none, assignedHostId := none
    requirement := { requiredCapabilities := ["openclaw"] }, payload := "openclaw-run"
    submittedBy := some (toPublicSubmitterId exKey1), result := none, error := none }

/-- Coordinator state holding the publicly submitted job. -/
def exStatePublic : CoordinatorState :=
  { nodeId := "node-a", leaseMs := 60000, hosts := [], jobs := [exJobPublic]
    services := [], nextVersion := 3 }

/-- A stored idempotency ledger record for `(POST /v1/jobs, req-1)`. -/
def exLedgerRecord : StoredIdempotencyRecord :=
  { route := "/v1/jobs", key := "req-1", requestHash := "hash-a", statusCode := 200
    responseJson := "stored-response-body", createdAt := 0, expiresAt := 1000 }

/-- A completion report from an unregistered host. -/
def exCompleteInput : CompleteJobRequest :=
  { hostId := "hX", success := true, durationMs := 42, exitCode := 0
    stdout := "ok", stderr := "", error := none }

/-- A service report whose endpoint carries a trailing slash. -/
def exReportSlash : ServiceReportRequest :=
  { hostId := "hA", status := ServiceStatus.running
    endpoint := some ("http://node-a:3100/"), error := none }

/-- A service report with a clean endpoint. -/
def exReportClean : ServiceReportRequest :=
  { hostId := "hA", status := ServiceStatus.running
    endpoint := some ("https://b.example.com"), error := none }

/-! Section: Lemmas about the list-modelled maps -/

theorem find?_setById {α : Type} (getId : α → String) (l : List α) (r : α) (q : String) :
    (setById getId l r).find? (fun x => getId x == q) =
      if q = getId r then some r else l.find? (fun x => getId x == q) := by
  induction l with
  | nil =>
    by_cases h : q = getId r
    · simp [setById, List.find?, h]
    · have : (getId r == q) = false := by
        simp [beq_iff_eq]
        exact fun he => h he.symm
      simp [setById, List.find?, this, h]
  | cons x rest ih =>
    by_cases hxr : getId x = getId r
    · have hb : (getId x == getId r) = true := by simp [beq_iff_eq, hxr]
      by_cases hq : q = getId r
      · have : (getId r == q) = true := by simp [beq_iff_eq, hq]
        simp [setById, hb, List.find?, this, hq]
      · have h1 : (getId r == q) = false := by
          simp [beq_iff_eq]
          exact fun he => hq he.symm
        have h2 : (getId x == q) = false := by
          simp [beq_iff_eq, hxr]
          exact fun he => hq he.symm
        simp [setById, hb, List.find?, h1, h2, hq]
    · have hb : (getId x == getId r) = false := by simp [beq_iff_eq, hxr]
      by_cases hx : getId x = q
      · have hq : ¬ q = getId r := fun he => hxr (hx.trans he)
        have : (getId x == q) = true := by simp [beq_iff_eq, hx]
        simp [setById, hb, List.find?, this, hq]
      · have : (getId x == q) = false := by simp [beq_iff_eq, hx]
        simp [setById, hb, List.find?, this, ih]

/-! Section: `shouldAdopt` is the strict lexicographic order on `metaKey` -/

theorem shouldAdopt_eq_true_iff (a b : VersionMeta) :
    shouldAdopt a b = true ↔ metaKey a < metaKey b := by
  unfold shouldAdopt metaKey
  rw [Prod.Lex.lt_iff, Prod.Lex.lt_iff]
  by_cases h1 : b.version.getD 0 ≠ a.version.getD 0
  · simp only [if_pos h1, decide_eq_true_iff]
    constructor
    · exact fun h => Or.inl h
    · rintro (h | ⟨he, _⟩)
      · exact h
      · exact absurd he.symm h1
  · have hv : b.version.getD 0 = a.version.getD 0 := not_not.mp h1
    simp only [if_neg h1]
    by_cases h2 : b.updatedAt.getD 0 ≠ a.updatedAt.getD 0
    · simp only [if_pos h2, decide_eq_true_iff]
      constructor
      · exact fun h => Or.inr ⟨hv.symm, Or.inl h⟩
      · rintro (h | ⟨_, h | ⟨he, _⟩⟩)
        · exact absurd hv (Nat.ne_of_gt h)
        · exact h
        · exact absurd he.symm h2
    · have hu : b.updatedAt.getD 0 = a.updatedAt.getD 0 := not_not.mp h2
      simp only [if_neg h2, decide_eq_true_iff]
      constructor
      · exact fun h => Or.inr ⟨hv.symm, Or.inr ⟨hu.symm, h⟩⟩
      · rintro (h | ⟨_, h | ⟨_, h⟩⟩)
        · exact absurd hv (Nat.ne_of_gt h)
        · exact absurd hu (Nat.ne_of_gt h)
        · exact h

theorem shouldAdopt_eq_false_iff (a b : VersionMeta) :
    shouldAdopt a b = false ↔ ¬ metaKey a < metaKey b := by
  rw [← shouldAdopt_eq_true_iff, Bool.not_eq_true]

/-! Section: The `mergeList` fold -/

theorem mergeList_noop {α : Type} (getId : α → String) (getMeta : α → VersionMeta)
    (incoming : List α) :
    ∀ (recs : List α) (v : Nat) (c : Bool),
      (∀ r ∈ incoming, ∃ x, recs.find? (fun t => getId t == getId r) = some x ∧
        shouldAdopt (getMeta x) (getMeta r) = false) →
      mergeList getId getMeta incoming recs v c = (recs, v, c) := by
  induction incoming with
  | nil => intro recs v c _; rfl
  | cons r rest ih =>
    intro recs v c h
    obtain ⟨x, hfind, hsa⟩ := h r (List.mem_cons_self r rest)
    unfold mergeList
    rw [hfind]
    simp only [hsa, Bool.false_eq_true, if_false]
    exact ih recs v c (fun r' hr' => h r' (List.mem_cons_of_mem r hr'))

theorem mergeList_preserves_beaten {α : Type} (getId : α → String)
    (getMeta : α → VersionMeta) (incoming : List α) :
    ∀ (recs : List α) (v : Nat) (c : Bool) (q x : α),
      recs.find? (fun t => getId t == getId q) = some x →
      ¬ metaKey (getMeta x) < metaKey (getMeta q) →
      ∃ y, (mergeList getId getMeta incoming recs v c).1.find?
              (fun t => getId t == getId q) = some y ∧
        ¬ metaKey (getMeta y) < metaKey (getMeta q) := by
  induction incoming with
  | nil => exact fun recs v c q x hf hx => ⟨x, hf, hx⟩
  | cons r rest ih =>
    intro recs v c q x hf hx
    by_cases hqr : getId q = getId r
    · have hpred : (fun t => getId t == getId r) = (fun t => getId t == getId q) := by
        rw [hqr]
      unfold mergeList
      rw [hpred, hf]
      by_cases hsa : shouldAdopt (getMeta x) (getMeta r) = true
      · simp only [hsa, if_true]
        have hxr : metaKey (getMeta x) < metaKey (getMeta r) :=
          (shouldAdopt_eq_true_iff _ _).mp hsa
        have hqx : metaKey (getMeta q) ≤ metaKey (getMeta x) := le_of_not_lt hx
        have hqltr : metaKey (getMeta q) < metaKey (getMeta r) := lt_of_le_of_lt hqx hxr
        have hnew : (setById getId recs r).find? (fun t => getId t == getId q) = some r := by
          rw [find?_setById, if_pos hqr]
        exact ih (setById getId recs r) _ true q r hnew (lt_asymm hqltr)
      · simp only [hsa, if_false]
        exact ih recs v c q x hf hx
    · unfold mergeList
      cases hfr : recs.find? (fun t => getId t == getId r) with
      | none =>
        have hnew : (setById getId recs r).find? (fun t => getId t == getId q) = some x := by
          rw [find?_setById, if_neg hqr]
          exact hf
        exact ih (setById getId recs r) _ true q x hnew hx
      | some cur =>
        by_cases hsa : shouldAdopt (getMeta cur) (getMeta r) = true
        · simp only [hsa, if_true]
          have hnew : (setById getId recs r).find? (fun t => getId t == getId q) = some x := by
            rw [find?_setById, if_neg hqr]
            exact hf
          exact ih (setById getId recs r) _ true q x hnew hx
        · simp only [hsa, if_false]
          exact ih recs v c q x hf hx

theorem mergeList_beats_incoming {α : Type} (getId : α → String)
    (getMeta : α → VersionMeta) (incoming : List α) :
    ∀ (recs : List α) (v : Nat) (c : Bool) (r : α), r ∈ incoming →
      ∃ y, (mergeList getId getMeta incoming recs v c).1.find?
              (fun t => getId t == getId r) = some y ∧
        ¬ metaKey (getMeta y) < metaKey (getMeta r) := by
  induction incoming with
  | nil => intro recs v c r hr; exact absurd hr (List.not_mem_nil r)
  | cons r0 rest ih =>
    intro recs v c r hr
    rcases List.mem_cons.mp hr with hrr | hrrest
    · subst hrr
      unfold mergeList
      cases hfr : recs.find? (fun t => getId t == getId r) with
      | none =>
        have hnew : (setById getId recs r).find? (fun t => getId t == getId r) = some r := by
          rw [find?_setById, if_pos rfl]
        exact mergeList_preserves_beaten getId getMeta rest _ _ true r r hnew (lt_irrefl _)
      | some cur =>
        by_cases hsa : shouldAdopt (getMeta cur) (getMeta r) = true
        · simp only [hsa, if_true]
          have hnew : (setById getId recs r).find? (fun t => getId t == getId r) = some r := by
            rw [find?_setById, if_pos rfl]
          exact mergeList_preserves_beaten getId getMeta rest _ _ true r r hnew (lt_irrefl _)
        · simp only [hsa, if_false]
          exact mergeList_preserves_beaten getId getMeta rest _ _ c r cur hfr
            ((shouldAdopt_eq_false_iff _ _).mp (Bool.eq_false_iff.mpr hsa))
    · unfold mergeList
      cases hfr : recs.find? (fun t => getId t == getId r0) with
      | none => exact ih _ _ true r hrrest
      | some cur =>
        by_cases hsa : shouldAdopt (getMeta cur) (getMeta r0) = true
        · simp only [hsa, if_true]
          exact ih _ _ true r hrrest
        · simp only [hsa, if_false]
          exact ih recs v c r hrrest

theorem mergeSnapshot_noop (s : CoordinatorState) (snap : CoordinatorSnapshot)
    (hh : ∀ r ∈ snap.hosts, ∃ x, s.hosts.find? (fun t => t.id == r.id) = some x ∧
            shouldAdopt (hostMeta x) (hostMeta r) = false)
    (hj : ∀ r ∈ snap.jobs, ∃ x, s.jobs.find? (fun t => t.id == r.id) = some x ∧
            shouldAdopt (jobMeta x) (jobMeta r) = false)
    (hs : ∀ r ∈ snap.services, ∃ x, s.services.find? (fun t => t.id == r.id) = some x ∧
            shouldAdopt (serviceMeta x) (serviceMeta r) = false) :
    mergeSnapshot s snap = (s, false) := by
  have h1 := mergeList_noop HostRecord.id hostMeta snap.hosts s.hosts s.nextVersion false hh
  have h2 := mergeList_noop JobRecord.id jobMeta snap.jobs s.jobs s.nextVersion false hj
  have h3 := mergeList_noop ServiceRecord.id serviceMeta snap.services s.services
    s.nextVersion false hs
  simp [mergeSnapshot, h1, h2, h3]

/-- Claim C6 (counterexample): applying `mergeSnapshot` does not always return
`changed = true` on the first application.  Replaying a snapshot that carries
exactly the host the local state already stores yields `changed = false` on the
very first application. -/
theorem mergeSnapshot_first_apply_not_always_changed :
    (mergeSnapshot exStateHostOnly
      { nodeId := "node-b", hosts := [exHostA], jobs := [], services := [] }).2 = false := by
  have hsa : shouldAdopt (hostMeta exHostA) (hostMeta exHostA) = false :=
    (shouldAdopt_eq_false_iff _ _).mpr (lt_irrefl _)
  have hfind : exStateHostOnly.hosts.find? (fun t => t.id == exHostA.id) = some exHostA := by
    simp [exStateHostOnly, List.find?]
  have hnoop := mergeSnapshot_noop exStateHostOnly
    { nodeId := "node-b", hosts := [exHostA], jobs := [], services := [] }
    (by
      intro r hr
      simp only [List.mem_singleton] at hr
      subst hr
      exact ⟨exHostA, hfind, hsa⟩)
    (by intro r hr; simp at hr)
    (by intro r hr; simp at hr)
  rw [hnoop]

/-- Claim C6 (amended): `mergeSnapshot` is idempotent in the sense that a second
application of the same snapshot reports `changed = false` and leaves the state
exactly as the first application left it.  (The first application reports
`changed = true` only when it actually adopts something; for a stale or empty
snapshot it already reports `false`.) -/
theorem mergeSnapshot_idempotent_second_apply (s : CoordinatorState)
    (snap : CoordinatorSnapshot) :
    mergeSnapshot (mergeSnapshot s snap).1 snap = ((mergeSnapshot s snap).1, false) := by
  rcases h1 : mergeList HostRecord.id hostMeta snap.hosts s.hosts s.nextVersion false with
    ⟨hosts1, v1, c1⟩
  rcases h2 : mergeList JobRecord.id jobMeta snap.jobs s.jobs v1 c1 with ⟨jobs1, v2, c2⟩
  rcases h3 : mergeList ServiceRecord.id serviceMeta snap.services s.services v2 c2 with
    ⟨services1, v3, c3⟩
  have hfst : mergeSnapshot s snap =
      ({ s with hosts := hosts1, jobs := jobs1, services := services1, nextVersion := v3 }, c3) := by
    simp [mergeSnapshot, h1, h2, h3]
  have hbh : ∀ r ∈ snap.hosts, ∃ x, hosts1.find? (fun t => t.id == r.id) = some x ∧
      shouldAdopt (hostMeta x) (hostMeta r) = false := by
    intro r hr
    obtain ⟨y, hy, hlt⟩ :=
      mergeList_beats_incoming HostRecord.id hostMeta snap.hosts s.hosts s.nextVersion false r hr
    rw [h1] at hy
    exact ⟨y, hy, (shouldAdopt_eq_false_iff _ _).mpr hlt⟩
  have hbj : ∀ r ∈ snap.jobs, ∃ x, jobs1.find? (fun t => t.id == r.id) = some x ∧
      shouldAdopt (jobMeta x) (jobMeta r) = false := by
    intro r hr
    obtain ⟨y, hy, hlt⟩ :=
      mergeList_beats_incoming JobRecord.id jobMeta snap.jobs s.jobs v1 c1 r hr
    rw [h2] at hy
    exact ⟨y, hy, (shouldAdopt_eq_false_iff _ _).mpr hlt⟩
  have hbs : ∀ r ∈ snap.services, ∃ x, services1.find? (fun t => t.id == r.id) = some x ∧
      shouldAdopt (serviceMeta x) (serviceMeta r) = false := by
    intro r hr
    obtain ⟨y, hy, hlt⟩ :=
      mergeList_beats_incoming ServiceRecord.id serviceMeta snap.services s.services v2 c2 r hr
    rw [h3] at hy
    exact ⟨y, hy, (shouldAdopt_eq_false_iff _ _).mpr hlt⟩
  rw [hfst]
  exact mergeSnapshot_noop _ snap hbh hbj hbs

/-- Claim C5: `shouldAdopt local incoming` holds exactly when the incoming
record is strictly greater in the lexicographic order on
(`version`, `updatedAt`, `updatedBy`), with a missing `version` counting as 0
and missing `updatedAt` / `updatedBy` counting as the empty value; and a
`mergeSnapshot` of a single incoming host / job / service adopts the record
(replacing the local copy and reporting `changed`) exactly when there is no
local copy or `shouldAdopt` holds, leaving the state untouched otherwise. -/
theorem shouldAdopt_lex_and_merge_adoption :
    (∀ a b : VersionMeta, shouldAdopt a b = true ↔
      (a.version.getD 0 < b.version.getD 0 ∨
        (a.version.getD 0 = b.version.getD 0 ∧
          (a.updatedAt.getD 0 < b.updatedAt.getD 0 ∨
            (a.updatedAt.getD 0 = b.updatedAt.getD 0 ∧
              a.updatedBy.getD ("") < b.updatedBy.getD ("")))))) ∧
    (∀ (s : CoordinatorState) (nid : String) (h : HostRecord),
      mergeSnapshot s { nodeId := nid, hosts := [h], jobs := [], services := [] } =
        if adoptsIncoming hostMeta (s.hosts.find? (fun t => t.id == h.id)) h then
          ({ s with hosts := setById HostRecord.id s.hosts h
                    nextVersion := max s.nextVersion (h.version + 1) }, true)
        else (s, false)) ∧
    (∀ (s : CoordinatorState) (nid : String) (j : JobRecord),
      mergeSnapshot s { nodeId := nid, hosts := [], jobs := [j], services := [] } =
        if adoptsIncoming jobMeta (s.jobs.find? (fun t => t.id == j.id)) j then
          ({ s with jobs := setById JobRecord.id s.jobs j
                    nextVersion := max s.nextVersion (j.version + 1) }, true)
        else (s, false)) ∧
    (∀ (s : CoordinatorState) (nid : String) (x : ServiceRecord),
      mergeSnapshot s { nodeId := nid, hosts := [], jobs := [], services := [x] } =
        if adoptsIncoming serviceMeta (s.services.find? (fun t => t.id == x.id)) x then
          ({ s with services := setById ServiceRecord.id s.services x
                    nextVersion := max s.nextVersion (x.version + 1) }, true)
        else (s, false)) := by
  refine ⟨?_, ?_, ?_, ?_⟩
  · intro a b
    rw [shouldAdopt_eq_true_iff]
    unfold metaKey
    rw [Prod.Lex.lt_iff, Prod.Lex.lt_iff]
  · intro s nid h
    cases hf : s.hosts.find? (fun t => t.id == h.id) with
    | none =>
      simp [mergeSnapshot, mergeList, adoptsIncoming, hf, hostMeta]
    | some cur =>
      by_cases hsa : shouldAdopt (hostMeta cur) (hostMeta h) = true
      · simp only [hostMeta] at hsa
        simp [mergeSnapshot, mergeList, adoptsIncoming, hf, hsa, hostMeta]
      · simp only [hostMeta] at hsa
        simp [mergeSnapshot, mergeList, adoptsIncoming, hf, hsa, hostMeta]
  · intro s nid j
    cases hf : s.jobs.find? (fun t => t.id == j.id) with
    | none =>
      simp [mergeSnapshot, mergeList, adoptsIncoming, hf, jobMeta]
    | some cur =>
      by_cases hsa : shouldAdopt (jobMeta cur) (jobMeta j) = true
      · simp only [jobMeta] at hsa
        simp [mergeSnapshot, mergeList, adoptsIncoming, hf, hsa, jobMeta]
      · simp only [jobMeta] at hsa
        simp [mergeSnapshot, mergeList, adoptsIncoming, hf, hsa, jobMeta]
  · intro s nid x
    cases hf : s.services.find? (fun t => t.id == x.id) with
    | none =>
      simp [mergeSnapshot, mergeList, adoptsIncoming, hf, serviceMeta]
    | some cur =>
      by_cases hsa : shouldAdopt (serviceMeta cur) (serviceMeta x) = true
      · simp only [serviceMeta] at hsa
        simp [mergeSnapshot, mergeList, adoptsIncoming, hf, hsa, serviceMeta]
      · simp only [serviceMeta] at hsa
        simp [mergeSnapshot, mergeList, adoptsIncoming, hf, hsa, serviceMeta]

/-! Section: The lease sweeper as a no-op, and selection from a sorted queue -/

theorem requeueGo_noop (nodeId : String) (now : Nat) :
    ∀ (jobs : List JobRecord) (hosts : List HostRecord) (v : Nat),
      (∀ j ∈ jobs, isExpiredLeased j now = false) →
      requeueGo nodeId now jobs hosts v = (jobs, hosts, v, 0) := by
  intro jobs
  induction jobs with
  | nil => intro hosts v _; rfl
  | cons j rest ih =>
    intro hosts v h
    have hj := h j (List.mem_cons_self j rest)
    unfold requeueGo
    rw [hj]
    simp only [Bool.false_eq_true, if_false]
    rw [ih hosts v (fun j' hj' => h j' (List.mem_cons_of_mem j hj'))]

theorem requeue_noop (s : CoordinatorState) (now : Nat)
    (h : ∀ j ∈ s.jobs, isExpiredLeased j now = false) :
    requeueExpiredLeases s now = (s, 0) := by
  unfold requeueExpiredLeases
  rw [requeueGo_noop s.nodeId now s.jobs s.hosts s.nextVersion h]

theorem find?_min_of_pairwise {α : Type} {le : α → α → Prop} (p : α → Bool) :
    ∀ (l : List α), l.Pairwise le → ∀ x, l.find? p = some x →
      ∀ y ∈ l, p y = true → (le x y ∨ x = y) := by
  intro l
  induction l with
  | nil => intro _ x hx; simp [List.find?] at hx
  | cons a t ih =>
    intro hpw x hx y hy hpy
    cases hpa : p a with
    | true =>
      rw [List.find?_cons_of_pos _ hpa] at hx
      injection hx with hax
      subst hax
      rcases List.mem_cons.mp hy with hya | hyt
      · exact Or.inr hya.symm
      · exact Or.inl ((List.pairwise_cons.mp hpw).1 y hyt)
    | false =>
      rw [List.find?_cons_of_neg _ (by simp [hpa])] at hx
      rcases List.mem_cons.mp hy with hya | hyt
      · subst hya
        rw [hpy] at hpa
        exact absurd hpa (by simp)
      · exact ih (List.pairwise_cons.mp hpw).2 x hx y hyt hpy

/-- Claim C1: for a registered host below its parallelism cap, `claimJob` (when
no lease is currently expired, so the initial sweep is a no-op) selects a
queued job with the earliest `createdAt` among those whose required
capabilities are a subset of the host's capabilities, marks it `leased` with
the claiming host, one more attempt and `leaseExpiresAt = now + leaseMs`, and
increments the host's `activeLeases`; it returns `null` when no eligible
queued job exists and throws `unknown host` for an unregistered host. -/
theorem claimJob_matches_spec (s : CoordinatorState) (hostId : String) (now : Nat)
    (hNoExp : ∀ j ∈ s.jobs, isExpiredLeased j now = false) :
    (s.hosts.find? (fun h => h.id == hostId) = none →
      claimJob s hostId now = Except.error ("unknown host: " ++ hostId)) ∧
    (∀ host, s.hosts.find? (fun h => h.id == hostId) = some host →
      host.activeLeases < host.maxParallel →
      ((∀ j ∈ s.jobs, j.status = JobStatus.queued →
          hasCapabilities host.capabilities j.requirement.requiredCapabilities = false) →
        claimJob s hostId now = Except.ok (none, s)) ∧
      ((∃ j ∈ s.jobs, j.status = JobStatus.queued ∧
          hasCapabilities host.capabilities j.requirement.requiredCapabilities = true) →
        ∃ next s', claimJob s hostId now = Except.ok (some next, s')) ∧
      (∀ next s', claimJob s hostId now = Except.ok (some next, s') →
        ∃ j0, j0 ∈ s.jobs ∧ j0.status = JobStatus.queued ∧
          hasCapabilities host.capabilities j0.requirement.requiredCapabilities = true ∧
          (∀ j1 ∈ s.jobs, j1.status = JobStatus.queued →
            hasCapabilities host.capabilities j1.requirement.requiredCapabilities = true →
            j0.createdAt ≤ j1.createdAt) ∧
          next = { j0 with
            status := JobStatus.leased,
            attempts := j0.attempts + 1,
            assignedHostId := some hostId,
            leaseExpiresAt := some (now + s.leaseMs),
            updatedAt := now,
            version := s.nextVersion,
            updatedBy := s.nodeId } ∧
          s' = { s with
            jobs := setById JobRecord.id s.jobs next,
            hosts := setById HostRecord.id s.hosts { host with
              activeLeases := host.activeLeases + 1,
              version := s.nextVersion + 1,
              updatedBy := s.nodeId },
            nextVersion := s.nextVersion + 2 })) := by
  have hs1 : (requeueExpiredLeases s now).1 = s := by rw [requeue_noop s now hNoExp]
  constructor
  · intro hf
    simp only [claimJob, hs1, hf]
  · intro host hf hpar
    have hnotle : ¬ host.maxParallel ≤ host.activeLeases := not_le.mpr hpar
    have hmemq : ∀ j, j ∈ List.insertionSort jobLe
        (s.jobs.filter (fun j => j.status == JobStatus.queued)) ↔
        (j ∈ s.jobs ∧ j.status = JobStatus.queued) := by
      intro j
      rw [(List.perm_insertionSort jobLe _).mem_iff, List.mem_filter]
      simp [beq_iff_eq]
    have hpw : (List.insertionSort jobLe
        (s.jobs.filter (fun j => j.status == JobStatus.queued))).Pairwise jobLe :=
      List.sorted_insertionSort jobLe _
    refine ⟨?_, ?_, ?_⟩
    · intro hnone
      have hfindn : (List.insertionSort jobLe
          (s.jobs.filter (fun j => j.status == JobStatus.queued))).find?
            (fun j => hasCapabilities host.capabilities j.requirement.requiredCapabilities)
          = none := by
        rw [List.find?_eq_none]
        intro x hx
        obtain ⟨hxs, hxq⟩ := (hmemq x).mp hx
        rw [hnone x hxs hxq]
        simp
      simp only [claimJob, hs1, hf, if_neg hnotle, hfindn]
    · rintro ⟨j, hjm, hjq, hjc⟩
      cases hfind : (List.insertionSort jobLe
          (s.jobs.filter (fun j => j.status == JobStatus.queued))).find?
            (fun j => hasCapabilities host.capabilities j.requirement.requiredCapabilities) with
      | none =>
        rw [List.find?_eq_none] at hfind
        exact absurd hjc (by simpa using hfind j ((hmemq j).mpr ⟨hjm, hjq⟩))
      | some next =>
        refine ⟨{ next with
          status := JobStatus.leased,
          attempts := next.attempts + 1,
          assignedHostId := some hostId,
          leaseExpiresAt := some (now + s.leaseMs),
          updatedAt := now,
          version := s.nextVersion,
          updatedBy := s.nodeId }, ?_, ?_⟩
        · exact { s with
            jobs := setById JobRecord.id s.jobs { next with
              status := JobStatus.leased,
              attempts := next.attempts + 1,
              assignedHostId := some hostId,
              leaseExpiresAt := some (now + s.leaseMs),
              updatedAt := now,
              version := s.nextVersion,
              updatedBy := s.nodeId },
            hosts := setById HostRecord.id s.hosts { host with
              activeLeases := host.activeLeases + 1,
              version := s.nextVersion + 1,
              updatedBy := s.nodeId },
            nextVersion := s.nextVersion + 2 }
        · simp only [claimJob, hs1, hf, if_neg hnotle, hfind]
    · intro next s' hrun
      cases hfind : (List.insertionSort jobLe
          (s.jobs.filter (fun j => j.status == JobStatus.queued))).find?
            (fun j => hasCapabilities host.capabilities j.requirement.requiredCapabilities) with
      | none =>
        simp only [claimJob, hs1, hf, if_neg hnotle, hfind] at hrun
        exact absurd (congrArg Prod.fst (Except.ok.inj hrun)) (by simp)
      | some j0 =>
        simp only [claimJob, hs1, hf, if_neg hnotle, hfind] at hrun
        have hpair := Except.ok.inj hrun
        have hnext : (none : Option JobRecord) = some next →
            False := by simp
        have hn : next = { j0 with
            status := JobStatus.leased,
            attempts := j0.attempts + 1,
            assignedHostId := some hostId,
            leaseExpiresAt := some (now + s.leaseMs),
            updatedAt := now,
            version := s.nextVersion,
            updatedBy := s.nodeId } := by
          have := congrArg Prod.fst hpair
          simp only at this
          exact (Option.some.inj this).symm
        have hsres : s' = { s with
            jobs := setById JobRecord.id s.jobs { j0 with
              status := JobStatus.leased,
              attempts := j0.attempts + 1,
              assignedHostId := some hostId,
              leaseExpiresAt := some (now + s.leaseMs),
              updatedAt := now,
              version := s.nextVersion,
              updatedBy := s.nodeId },
            hosts := setById HostRecord.id s.hosts { host with
              activeLeases := host.activeLeases + 1,
              version := s.nextVersion + 1,
              updatedBy := s.nodeId },
            nextVersion := s.nextVersion + 2 } := by
          have := congrArg Prod.snd hpair
          simp only at this
          exact this.symm
        obtain ⟨hj0s, hj0q⟩ := (hmemq j0).mp (List.mem_of_find?_eq_some hfind)
        have hj0c := List.find?_some hfind
        refine ⟨j0, hj0s, hj0q, hj0c, ?_, hn, ?_⟩
        · intro j1 hj1s hj1q hj1c
          have hj1m : j1 ∈ List.insertionSort jobLe
              (s.jobs.filter (fun j => j.status == JobStatus.queued)) :=
            (hmemq j1).mpr ⟨hj1s, hj1q⟩
          rcases find?_min_of_pairwise _ _ hpw j0 hfind j1 hj1m hj1c with hle | heq
          · exact hle
          · exact heq ▸ le_refl _
        · rw [hsres, hn]

/-- Witness for claim C1, at a worker host with spare capacity and one eligible
queued job. -/
theorem claimJob_matches_spec_witness :
    (∀ j ∈ exStateJobs.jobs, isExpiredLeased j 50 = false) ∧
    (∃ next s', claimJob exStateJobs ("hW") 50 = Except.ok (some next, s')) :=
  ⟨by decide,
   ((claimJob_matches_spec exStateJobs ("hW") 50 (by decide)).2 exHostW (by decide)
       (by decide)).2.1 ⟨exJobQ, by decide, by decide, by decide⟩⟩

/-! Section: The lease sweeper in general -/

theorem decHost_find (hosts : List HostRecord) (v : Nat) (nodeId : String)
    (oh : Option String) (hid : String) :
    ((decHostForJob hosts v nodeId oh).1.find? (fun h => h.id == hid)).map
        HostRecord.activeLeases
      = (hosts.find? (fun h => h.id == hid)).map
          (fun h => if oh = some hid then h.activeLeases - 1 else h.activeLeases) := by
  cases oh with
  | none => simp [decHostForJob]
  | some hid0 =>
    cases hfr : hosts.find? (fun h => h.id == hid0) with
    | none =>
      by_cases hq : hid0 = hid
      · subst hq
        simp [decHostForJob, hfr]
      · have : (some hid0 = some hid) = False := by simp [hq]
        simp [decHostForJob, hfr, this]
    | some host0 =>
      have hid0eq : host0.id = hid0 := by
        have := List.find?_some hfr
        simpa [beq_iff_eq] using this
      by_cases hact : 0 < host0.activeLeases
      · simp only [decHostForJob, hfr, if_pos hact]
        rw [find?_setById]
        by_cases hq : hid = hid0
        · subst hq
          rw [if_pos (by simp [hid0eq]), hfr]
          simp
        · rw [if_neg (by simp [hid0eq]; exact hq)]
          have : (some hid0 = some hid) = False := by simp; exact fun he => hq he.symm
          simp [this]
      · have hz : host0.activeLeases = 0 := Nat.eq_zero_of_not_pos hact
        simp only [decHostForJob, hfr, if_neg hact]
        by_cases hq : hid = hid0
        · subst hq
          rw [hfr]
          simp [hz]
        · have : (some hid0 = some hid) = False := by simp; exact fun he => hq he.symm
          simp [this]

theorem requeueGo_hosts (nodeId : String) (now : Nat) :
    ∀ (jobs : List JobRecord) (hosts : List HostRecord) (v : Nat) (hid : String),
      ((requeueGo nodeId now jobs hosts v).2.1.find? (fun h => h.id == hid)).map
          HostRecord.activeLeases
        = (hosts.find? (fun h => h.id == hid)).map
            (fun h => h.activeLeases -
              (jobs.filter (fun j =>
                isExpiredLeased j now && (j.assignedHostId == some hid))).length) := by
  intro jobs
  induction jobs with
  | nil => intro hosts v hid; simp [requeueGo]
  | cons j rest ih =>
    intro hosts v hid
    by_cases hexp : isExpiredLeased j now = true
    · rcases hd : decHostForJob hosts v nodeId j.assignedHostId with ⟨hosts1, v1⟩
      rcases hr : requeueGo nodeId now rest hosts1 (v1 + 1) with ⟨rest', hosts2, v2, n⟩
      have hstep : (requeueGo nodeId now (j :: rest) hosts v).2.1 = hosts2 := by
        simp [requeueGo, hexp, hd, hr]
      rw [hstep]
      have ih1 := ih hosts1 (v1 + 1) hid
      rw [hr] at ih1
      simp only at ih1
      have hd1 := decHost_find hosts v nodeId j.assignedHostId hid
      rw [hd] at hd1
      simp only at hd1
      cases hfh : hosts.find? (fun h => h.id == hid) with
      | none =>
        rw [hfh] at hd1
        simp only [Option.map_none'] at hd1
        have h1n : hosts1.find? (fun h => h.id == hid) = none :=
          Option.map_eq_none'.mp hd1
        rw [h1n] at ih1
        simp only [Option.map_none'] at ih1
        rw [ih1]
        simp
      | some h0 =>
        rw [hfh] at hd1
        simp only [Option.map_some'] at hd1
        obtain ⟨h1rec, hf1, hal1⟩ := Option.map_eq_some'.mp hd1
        rw [hf1] at ih1
        simp only [Option.map_some'] at ih1
        rw [ih1, hal1]
        simp only [Option.map_some', Option.some.injEq]
        by_cases hassign : (j.assignedHostId == some hid) = true
        · rw [if_pos (by simpa [beq_iff_eq] using hassign)]
          rw [List.filter_cons_of_pos (by simp [hexp, hassign])]
          simp only [List.length_cons]
          omega
        · rw [if_neg (by
            intro he
            exact hassign (by simp [beq_iff_eq, he]))]
          rw [List.filter_cons_of_neg (by simp [hassign])]
    · have hexpf : isExpiredLeased j now = false := Bool.eq_false_iff.mpr hexp
      rcases hr : requeueGo nodeId now rest hosts v with ⟨rest', hosts', v', n⟩
      have hstep : (requeueGo nodeId now (j :: rest) hosts v).2.1 = hosts' := by
        simp [requeueGo, hexpf, hr]
      rw [hstep]
      have ih1 := ih hosts v hid
      rw [hr] at ih1
      simp only at ih1
      rw [ih1]
      rw [List.filter_cons_of_neg (by simp [hexpf])]

theorem requeueGo_count (nodeId : String) (now : Nat) :
    ∀ (jobs : List JobRecord) (hosts : List HostRecord) (v : Nat),
      (requeueGo nodeId now jobs hosts v).2.2.2
        = (jobs.filter (fun j => isExpiredLeased j now)).length := by
  intro jobs
  induction jobs with
  | nil => intro hosts v; rfl
  | cons j rest ih =>
    intro hosts v
    by_cases hexp : isExpiredLeased j now = true
    · rcases hd : decHostForJob hosts v nodeId j.assignedHostId with ⟨hosts1, v1⟩
      rcases hr : requeueGo nodeId now rest hosts1 (v1 + 1) with ⟨rest', hosts2, v2, n⟩
      have := ih hosts1 (v1 + 1)
      rw [hr] at this
      simp only at this
      simp [requeueGo, hexp, hd, hr, List.filter_cons_of_pos, this]
    · have hexpf : isExpiredLeased j now = false := Bool.eq_false_iff.mpr hexp
      rcases hr : requeueGo nodeId now rest hosts v with ⟨rest', hosts', v', n⟩
      have := ih hosts v
      rw [hr] at this
      simp only at this
      simp [requeueGo, hexpf, hr, List.filter_cons_of_neg, this]

theorem requeueGo_jobs (nodeId : String) (now : Nat) :
    ∀ (jobs : List JobRecord) (hosts : List HostRecord) (v : Nat),
      List.Forall₂ (fun j j' =>
        (isExpiredLeased j now = true →
          j'.id = j.id ∧ j'.status = JobStatus.queued ∧ j'.assignedHostId = none ∧
          j'.leaseExpiresAt = none ∧ j'.attempts = j.attempts ∧
          j'.createdAt = j.createdAt ∧ j'.requirement = j.requirement ∧
          j'.payload = j.payload) ∧
        (isExpiredLeased j now = false → j' = j))
        jobs (requeueGo nodeId now jobs hosts v).1 := by
  intro jobs
  induction jobs with
  | nil => intro hosts v; exact List.Forall₂.nil
  | cons j rest ih =>
    intro hosts v
    by_cases hexp : isExpiredLeased j now = true
    · rcases hd : decHostForJob hosts v nodeId j.assignedHostId with ⟨hosts1, v1⟩
      rcases hr : requeueGo nodeId now rest hosts1 (v1 + 1) with ⟨rest', hosts2, v2, n⟩
      have hstep : (requeueGo nodeId now (j :: rest) hosts v).1 =
          { j with
            status := JobStatus.queued,
            assignedHostId := none,
            leaseExpiresAt := none,
            updatedAt := now,
            version := v1,
            updatedBy := nodeId } :: rest' := by
        simp [requeueGo, hexp, hd, hr]
      rw [hstep]
      refine List.Forall₂.cons ⟨fun _ => ?_, fun hf => absurd hexp (by simp [hf])⟩ ?_
      · exact ⟨rfl, rfl, rfl, rfl, rfl, rfl, rfl, rfl⟩
      · have := ih hosts1 (v1 + 1)
        rw [hr] at this
        exact this
    · have hexpf : isExpiredLeased j now = false := Bool.eq_false_iff.mpr hexp
      rcases hr : requeueGo nodeId now rest hosts v with ⟨rest', hosts', v', n⟩
      have hstep : (requeueGo nodeId now (j :: rest) hosts v).1 = j :: rest' := by
        simp [requeueGo, hexpf, hr]
      rw [hstep]
      refine List.Forall₂.cons ⟨fun ht => absurd ht (by simp [hexpf]), fun _ => rfl⟩ ?_
      have := ih hosts v
      rw [hr] at this
      exact this

/-- Claim C4: `requeueExpiredLeases` requeues a job exactly when its status is
`leased` and its lease expiry is set and `≤ now`: every such job returns to
`queued` with assignment and expiry cleared and its attempt counter untouched,
every other job is left exactly as it was, each previously assigned host's
`activeLeases` drops by the number of its requeued jobs with a floor of 0
(iterated guarded decrement equals truncated subtraction), and the returned
count is exactly the number of requeued jobs. -/
theorem requeueExpiredLeases_spec (s : CoordinatorState) (now : Nat) :
    (requeueExpiredLeases s now).2
      = (s.jobs.filter (fun j => isExpiredLeased j now)).length ∧
    List.Forall₂ (fun j j' =>
      (isExpiredLeased j now = true →
        j'.id = j.id ∧ j'.status = JobStatus.queued ∧ j'.assignedHostId = none ∧
        j'.leaseExpiresAt = none ∧ j'.attempts = j.attempts ∧
        j'.createdAt = j.createdAt ∧ j'.requirement = j.requirement ∧
        j'.payload = j.payload) ∧
      (isExpiredLeased j now = false → j' = j))
      s.jobs (requeueExpiredLeases s now).1.jobs ∧
    (∀ hid : String,
      (((requeueExpiredLeases s now).1.hosts.find? (fun h => h.id == hid)).map
          HostRecord.activeLeases)
        = (s.hosts.find? (fun h => h.id == hid)).map
            (fun h => h.activeLeases -
              (s.jobs.filter (fun j =>
                isExpiredLeased j now && (j.assignedHostId == some hid))).length)) := by
  rcases hr : requeueGo s.nodeId now s.jobs s.hosts s.nextVersion with ⟨jobs', hosts', v', n⟩
  have hq : requeueExpiredLeases s now =
      ({ s with jobs := jobs', hosts := hosts', nextVersion := v' }, n) := by
    simp [requeueExpiredLeases, hr]
  refine ⟨?_, ?_, ?_⟩
  · have := requeueGo_count s.nodeId now s.jobs s.hosts s.nextVersion
    rw [hr] at this
    simp only at this
    rw [hq]
    exact this
  · have := requeueGo_jobs s.nodeId now s.jobs s.hosts s.nextVersion
    rw [hr] at this
    simp only at this
    rw [hq]
    exact this
  · intro hid
    have := requeueGo_hosts s.nodeId now s.jobs s.hosts s.nextVersion hid
    rw [hr] at this
    simp only at this
    rw [hq]
    exact this

/-! Section: Checkpoint / restore round trips -/

theorem foldr_max_perm {l l' : List Nat} (h : l.Perm l') :
    l.foldr max 0 = l'.foldr max 0 := by
  induction h with
  | nil => rfl
  | cons x _ ih => simp [List.foldr, ih]
  | swap x y l => simp [List.foldr, max_left_comm]
  | trans _ _ ih1 ih2 => exact ih1.trans ih2

theorem find?_eq_of_perm_of_nodup_ids {α : Type} (getId : α → String) {l l' : List α}
    (hperm : l.Perm l') (hnd : (l.map getId).Nodup) (q : String) :
    l.find? (fun x => getId x == q) = l'.find? (fun x => getId x == q) := by
  cases hf : l.find? (fun x => getId x == q) with
  | none =>
    rw [List.find?_eq_none] at hf
    symm
    rw [List.find?_eq_none]
    intro x hx
    exact hf x (hperm.mem_iff.mpr hx)
  | some a =>
    have ha := List.find?_some hf
    have ham := List.mem_of_find?_eq_some hf
    cases hf' : l'.find? (fun x => getId x == q) with
    | none =>
      rw [List.find?_eq_none] at hf'
      exact absurd ha (by simpa using hf' a (hperm.mem_iff.mp ham))
    | some b =>
      have hb := List.find?_some hf'
      have hbm : b ∈ l := hperm.mem_iff.mpr (List.mem_of_find?_eq_some hf')
      have hab : a = b := by
        refine List.inj_on_of_nodup_map hnd ham hbm ?_
        have h1 : getId a = q := by simpa [beq_iff_eq] using ha
        have h2 : getId b = q := by simpa [beq_iff_eq] using hb
        rw [h1, h2]
      rw [hab]

theorem requeue_preserves_node (s : CoordinatorState) (now : Nat) :
    (requeueExpiredLeases s now).1.nodeId = s.nodeId ∧
    (requeueExpiredLeases s now).1.leaseMs = s.leaseMs := by
  rcases hr : requeueGo s.nodeId now s.jobs s.hosts s.nextVersion with ⟨jobs', hosts', v', n⟩
  simp [requeueExpiredLeases, hr]

/-- Claim C2: on the quorum path (enough peers known, the local mutation applied
cleanly) with strictly fewer 2xx peer acks than `requiredPeerAcks`, the call
fails with the `replication target not met` error (surfaced as 503) and the
state is `restore`d to the pre-mutation checkpoint: `nodeId`, `leaseMs`,
`nextVersion` and the hosts map are exactly the pre-call ones, and the jobs and
services maps hold exactly the pre-call records (the checkpoint stores them
re-ordered by `createdAt`, so the lists are permutations with identical
per-id lookups).  The durable mirror is replaced with the same records by
`replaceAll` inside `restore`. -/
theorem quorum_failure_restores_state {α : Type} (s : CoordinatorState)
    (peerAcks : List Bool) (requiredPeerAcks now : Nat)
    (mutate : CoordinatorState → Except String (α × CoordinatorState))
    (value : α) (s1 : CoordinatorState)
    (hMut : mutate s = Except.ok (value, s1))
    (hNode : s1.nodeId = s.nodeId) (hLease : s1.leaseMs = s.leaseMs)
    (hPeers : requiredPeerAcks ≤ peerAcks.length)
    (hAcks : countAcks peerAcks < requiredPeerAcks)
    (hInv : s.nextVersion = stateMaxVersion s + 1)
    (hJ : (s.jobs.map JobRecord.id).Nodup)
    (hS : (s.services.map ServiceRecord.id).Nodup) :
    ∃ s', applyMutationWithQuorum s peerAcks requiredPeerAcks now mutate =
        (QuorumResult.quorumError ("replication target not met: required " ++
          toString requiredPeerAcks ++ " peer acks, got " ++
          toString (countAcks peerAcks)), s') ∧
      s'.nodeId = s.nodeId ∧ s'.leaseMs = s.leaseMs ∧
      s'.nextVersion = s.nextVersion ∧ s'.hosts = s.hosts ∧
      s'.jobs.Perm s.jobs ∧ s'.services.Perm s.services ∧
      (∀ i, s'.jobs.find? (fun j => j.id == i) = s.jobs.find? (fun j => j.id == i)) ∧
      (∀ i, s'.services.find? (fun x => x.id == i)
        = s.services.find? (fun x => x.id == i)) := by
  have hrun : applyMutationWithQuorum s peerAcks requiredPeerAcks now mutate =
      (QuorumResult.quorumError ("replication target not met: required " ++
        toString requiredPeerAcks ++ " peer acks, got " ++
        toString (countAcks peerAcks)),
       restore (if peerAcks.isEmpty then s1 else (requeueExpiredLeases s1 now).1)
         (checkpoint s)) := by
    rw [applyMutationWithQuorum, if_neg (not_lt.mpr hPeers), hMut]
    simp only [if_pos hAcks]
  refine ⟨_, hrun, ?_, ?_, ?_, rfl, ?_, ?_, ?_, ?_⟩
  · show (if peerAcks.isEmpty then s1 else (requeueExpiredLeases s1 now).1).nodeId = s.nodeId
    by_cases he : peerAcks.isEmpty
    · rw [if_pos he, hNode]
    · rw [if_neg he, (requeue_preserves_node s1 now).1, hNode]
  · show (if peerAcks.isEmpty then s1 else (requeueExpiredLeases s1 now).1).leaseMs = s.leaseMs
    by_cases he : peerAcks.isEmpty
    · rw [if_pos he, hLease]
    · rw [if_neg he, (requeue_preserves_node s1 now).2, hLease]
  · show (max (max (listMaxVersion ((checkpoint s).hosts.map HostRecord.version))
        (listMaxVersion ((checkpoint s).jobs.map JobRecord.version)))
        (listMaxVersion ((checkpoint s).services.map ServiceRecord.version)) + 1)
      = s.nextVersion
    have hj : listMaxVersion ((checkpoint s).jobs.map JobRecord.version)
        = listMaxVersion (s.jobs.map JobRecord.version) :=
      foldr_max_perm ((List.perm_insertionSort jobLe s.jobs).map JobRecord.version)
    have hs : listMaxVersion ((checkpoint s).services.map ServiceRecord.version)
        = listMaxVersion (s.services.map ServiceRecord.version) :=
      foldr_max_perm ((List.perm_insertionSort serviceLe s.services).map ServiceRecord.version)
    rw [show (checkpoint s).hosts = s.hosts from rfl] at *
    rw [hj, hs]
    exact (hInv.symm : stateMaxVersion s + 1 = s.nextVersion)
  · exact List.perm_insertionSort jobLe s.jobs
  · exact List.perm_insertionSort serviceLe s.services
  · intro i
    exact (find?_eq_of_perm_of_nodup_ids JobRecord.id
      (List.perm_insertionSort jobLe s.jobs).symm hJ i).symm
  · intro i
    exact (find?_eq_of_perm_of_nodup_ids ServiceRecord.id
      (List.perm_insertionSort serviceLe s.services).symm hS i).symm

/-- Witness for claim C2, at an empty state with one peer that did not ack. -/
theorem quorum_failure_restores_state_witness :
    ∃ s', applyMutationWithQuorum exStateEmpty [false] 1 0
        (fun st => Except.ok ((0 : Nat), st)) =
        (QuorumResult.quorumError ("replication target not met: required " ++
          toString 1 ++ " peer acks, got " ++ toString (countAcks [false])), s') ∧
      s'.nodeId = exStateEmpty.nodeId ∧ s'.leaseMs = exStateEmpty.leaseMs ∧
      s'.nextVersion = exStateEmpty.nextVersion ∧ s'.hosts = exStateEmpty.hosts ∧
      s'.jobs.Perm exStateEmpty.jobs ∧ s'.services.Perm exStateEmpty.services ∧
      (∀ i, s'.jobs.find? (fun j => j.id == i)
        = exStateEmpty.jobs.find? (fun j => j.id == i)) ∧
      (∀ i, s'.services.find? (fun x => x.id == i)
        = exStateEmpty.services.find? (fun x => x.id == i)) :=
  quorum_failure_restores_state exStateEmpty [false] 1 0
    (fun st => Except.ok ((0 : Nat), st)) 0 exStateEmpty rfl rfl rfl
    (by decide) (by decide) (by decide) (by decide) (by decide)

/-! Section: Completion, idempotency and the public surface -/

/-- Claim C10: `completeJob` validates the host, the job, the assignment and the
lease state before writing any field, so whenever it throws the coordinator
state after the call is exactly the state before the call. -/
theorem completeJob_error_leaves_state_unchanged (s : CoordinatorState) (jobId : String)
    (input : CompleteJobRequest) (now : Nat) (e : String)
    (h : (completeJob s jobId input now).1 = Except.error e) :
    (completeJob s jobId input now).2 = s := by
  cases hfh : s.hosts.find? (fun t => t.id == input.hostId) with
  | none => simp [completeJob, hfh]
  | some host =>
    cases hfj : s.jobs.find? (fun j => j.id == jobId) with
    | none => simp [completeJob, hfh, hfj]
    | some job =>
      by_cases ha : job.assignedHostId ≠ some input.hostId
      · simp [completeJob, hfh, hfj, ha]
      · by_cases hst : job.status ≠ JobStatus.leased
        · simp [completeJob, hfh, hfj, ha, hst]
        · exfalso
          simp [completeJob, hfh, hfj, ha, hst] at h

/-- Witness for claim C10, at a completion report naming an unregistered host. -/
theorem completeJob_error_leaves_state_unchanged_witness :
    (completeJob exStateEmpty ("j1") exCompleteInput 0).1
      = Except.error ("unknown host: hX") ∧
    (completeJob exStateEmpty ("j1") exCompleteInput 0).2 = exStateEmpty :=
  ⟨by decide,
   completeJob_error_leaves_state_unchanged exStateEmpty ("j1") exCompleteInput 0
     ("unknown host: hX") (by decide)⟩

/-- Claim C3: for a request carrying a non-blank idempotency key whose
`(route, key)` pair is already in the ledger, `applyIdempotentMutation` never
invokes the wrapped mutation (so neither the state machine nor peer
replication runs and the ledger is untouched): it answers the 409 conflict
when the stored hash differs from the SHA-256 of `route + "\n" + canonical
body`, and replays the stored status code and stored response body verbatim
when the hashes match. -/
theorem idempotency_replay_and_conflict {σ α : Type} (sha256 : String → String)
    (rawKey : Option String) (key route canonicalBody : String) (ttlMs now : Nat)
    (ledger : List StoredIdempotencyRecord) (s : σ)
    (mutate : σ → Except String α × σ) (toResponseBody : α → String)
    (existing : StoredIdempotencyRecord)
    (hKey : readIdempotencyKey rawKey = some key)
    (hFound : getIdempotency ledger route key = some existing) :
    (existing.requestHash ≠ hashIdempotencyRequest sha256 route canonicalBody →
      applyIdempotentMutation sha256 rawKey route canonicalBody ttlMs now ledger s
          mutate toResponseBody
        = (AppliedOutcome.conflict ("idempotency key reuse conflict for route " ++ route),
           s, ledger)) ∧
    (existing.requestHash = hashIdempotencyRequest sha256 route canonicalBody →
      applyIdempotentMutation sha256 rawKey route canonicalBody ttlMs now ledger s
          mutate toResponseBody
        = (AppliedOutcome.ok existing.statusCode existing.responseJson, s, ledger)) := by
  constructor
  · intro hne
    simp [applyIdempotentMutation, hKey, hFound, hne]
  · intro heq
    simp [applyIdempotentMutation, hKey, hFound, heq]

/-- Witness for claim C3, replaying the conflict and replay branches on a
one-record ledger with the identity standing in for SHA-256. -/
theorem idempotency_replay_and_conflict_witness :
    applyIdempotentMutation (fun x => x) (some ("req-1")) "/v1/jobs" "B" 1000 0
        [exLedgerRecord] (0 : Nat) (fun st => (Except.ok (0 : Nat), st)) (fun _ => "r")
      = (AppliedOutcome.conflict ("idempotency key reuse conflict for route /v1/jobs"),
         0, [exLedgerRecord]) :=
  (idempotency_replay_and_conflict (fun x => x) (some ("req-1")) "req-1" "/v1/jobs" "B"
      1000 0 [exLedgerRecord] (0 : Nat) (fun st => (Except.ok (0 : Nat), st)) (fun _ => "r")
      exLedgerRecord (by decide) (by decide)).1 (by decide)

/-- Claim C7 (counterexample): the derived-status invariant does not hold after
every state operation.  `deployService` creates a `pending` service with no
assignments (the aggregate of an empty assignment list is `failed`), and
`claimService` appends a `pending` assignment without recomputing the service
status (leaving a `failed` status on a service whose aggregate is `pending`). -/
theorem service_status_not_always_derived :
    ((deployService exStateSvc exDeployInput 5 ("svcNew")).1.status
        = ServiceStatus.pending ∧
      derivedServiceStatus (deployService exStateSvc exDeployInput 5 ("svcNew")).1.assignments
        = ServiceStatus.failed) ∧
    (∃ svc s', claimService exStateSvc ("hA") 5 = Except.ok (some svc, s') ∧
      svc.status = ServiceStatus.failed ∧
      derivedServiceStatus svc.assignments = ServiceStatus.pending) :=
  ⟨⟨by decide, by decide⟩, ⟨_, _, rfl, by decide, by decide⟩⟩

/-- Claim C7 (amended): `reportService` recomputes the reported service's status
from its assignment aggregate — running if any assignment is running, else
pending if any is pending, else failed — and stores that service; after
`deployService` (empty assignments, status `pending`) and `claimService`
(status not recomputed) the invariant need not hold. -/
theorem reportService_status_derived (s : CoordinatorState) (serviceId : String)
    (input : ServiceReportRequest) (now : Nat) (svc' : ServiceRecord)
    (s' : CoordinatorState)
    (h : reportService s serviceId input now = (Except.ok svc', s')) :
    svc'.status = derivedServiceStatus svc'.assignments ∧
    s'.services = setById ServiceRecord.id s.services svc' := by
  cases hfs : s.services.find? (fun x => x.id == serviceId) with
  | none => simp [reportService, hfs] at h
  | some service =>
    cases hfa : service.assignments.find? (fun a => a.hostId == input.hostId) with
    | none => simp [reportService, hfs, hfa] at h
    | some a =>
      simp only [reportService, hfs, hfa, Prod.mk.injEq, Except.ok.injEq] at h
      obtain ⟨h1, h2⟩ := h
      subst h1
      subst h2
      exact ⟨rfl, rfl⟩

/-- Witness for the amended claim C7, on a successful running report. -/
theorem reportService_status_derived_witness :
    ∃ svc' s', reportService exStateSvcPending ("svc2") exReportClean 5
        = (Except.ok svc', s') ∧
      svc'.status = derivedServiceStatus svc'.assignments :=
  ⟨_, _, rfl,
   (reportService_status_derived exStateSvcPending ("svc2") exReportClean 5 _ _ rfl).1⟩

theorem find?_updateAssignments (input : ServiceReportRequest) (now : Nat) :
    ∀ (l : List Assignment) (a : Assignment),
      l.find? (fun t => t.hostId == input.hostId) = some a →
      (updateAssignments input now l).find? (fun t => t.hostId == input.hostId)
        = some (reportServiceAssignment a input now) := by
  intro l
  induction l with
  | nil => intro a ha; simp [List.find?] at ha
  | cons x rest ih =>
    intro a ha
    by_cases hx : (x.hostId == input.hostId) = true
    · have hconsa : List.find? (fun t => t.hostId == input.hostId) (x :: rest) = some x :=
        List.find?_cons_of_pos rest hx
      rw [hconsa] at ha
      injection ha with hxa
      subst hxa
      have hkeep : (reportServiceAssignment x input now).hostId = x.hostId := by
        unfold reportServiceAssignment
        split <;> rfl
      simp only [updateAssignments, hx, if_true]
      have hpos : ((reportServiceAssignment x input now).hostId == input.hostId) = true := by
        rw [hkeep]
        exact hx
      exact List.find?_cons_of_pos rest hpos
    · have hxf : (x.hostId == input.hostId) = false := Bool.eq_false_iff.mpr hx
      rw [List.find?_cons_of_neg _ (by simp [hxf])] at ha
      simp only [updateAssignments, hxf, Bool.false_eq_true, if_false]
      rw [List.find?_cons_of_neg _ (by simp [hxf])]
      exact ih a ha

theorem reportServiceAssignment_endpoint (a : Assignment) (input : ServiceReportRequest)
    (now : Nat) :
    (reportServiceAssignment a input now).endpoint = input.endpoint := by
  unfold reportServiceAssignment
  split <;> rfl

/-- Claim C9 (counterexample): the coordinator stores reported assignment
endpoints verbatim — a report whose endpoint ends in `/` is stored with the
trailing slash intact, so endpoints are not trimmed of a trailing `/` by any
state operation.  (The trailing-slash trimming the spec describes happens in
the gateway registry when it builds its endpoint lists.) -/
theorem reportService_keeps_trailing_slash :
    ∃ svc' s', reportService exStateSvcPending ("svc2") exReportSlash 5
        = (Except.ok svc', s') ∧
      (svc'.assignments.find? (fun a => a.hostId == "hA")).map Assignment.endpoint
        = some (some ("http://node-a:3100/")) ∧
      ("http://node-a:3100/").data.getLast? = some '/' :=
  ⟨_, _, rfl, by decide, by decide⟩

/-- Claim C9 (amended): `reportService` stores the reported endpoint string
verbatim on the matching assignment (no trailing-slash trimming in the
coordinator). -/
theorem reportService_stores_endpoint_verbatim (s : CoordinatorState)
    (serviceId : String) (input : ServiceReportRequest) (now : Nat)
    (svc' : ServiceRecord) (s' : CoordinatorState)
    (h : reportService s serviceId input now = (Except.ok svc', s')) :
    (svc'.assignments.find? (fun a => a.hostId == input.hostId)).map Assignment.endpoint
      = some input.endpoint := by
  cases hfs : s.services.find? (fun x => x.id == serviceId) with
  | none => simp [reportService, hfs] at h
  | some service =>
    cases hfa : service.assignments.find? (fun a => a.hostId == input.hostId) with
    | none => simp [reportService, hfs, hfa] at h
    | some a =>
      simp only [reportService, hfs, hfa, Prod.mk.injEq, Except.ok.injEq] at h
      obtain ⟨h1, _⟩ := h
      subst h1
      rw [show ({ service with
          assignments := updateAssignments input now service.assignments,
          status := derivedServiceStatus (updateAssignments input now service.assignments),
          updatedAt := now,
          version := s.nextVersion,
          updatedBy := s.nodeId } : ServiceRecord).assignments
        = updateAssignments input now service.assignments from rfl]
      rw [find?_updateAssignments input now service.assignments a hfa]
      rw [Option.map_some', reportServiceAssignment_endpoint]

/-- Witness for the amended claim C9, on a report with a clean endpoint. -/
theorem reportService_stores_endpoint_verbatim_witness :
    ∃ svc' s', reportService exStateSvcPending ("svc2") exReportClean 5
        = (Except.ok svc', s') ∧
      (svc'.assignments.find? (fun a => a.hostId == exReportClean.hostId)).map
          Assignment.endpoint
        = some exReportClean.endpoint :=
  ⟨_, _, rfl,
   reportService_stores_endpoint_verbatim exStateSvcPending ("svc2") exReportClean 5 _ _ rfl⟩

/-- Claim C8 (counterexample): the tenant identity of a public key is
`public:<label>`, so two distinct configured keys that share a label share an
identity: a job submitted under `k1` (label `acme`) is readable through the
different key `k2` (label `acme`) — it is not the case that a job submitted
under one key is never readable through a different key. -/
theorem public_job_readable_across_keys_sharing_label :
    exKey1 ≠ exKey2 ∧
    resolvePublicApiKey (some ("k2")) [exKey1, exKey2] = some exKey2 ∧
    exJobPublic.submittedBy = some (toPublicSubmitterId exKey1) ∧
    publicJobGetHandler exStatePublic exKey2 ("jp")
      = PublicJobGetResult.ok (toPublicJobResponse exJobPublic) :=
  ⟨by decide, by decide, by decide, by decide⟩

/-- Claim C8 (amended): `GET /v1/public/jobs/:id` answers 404 whenever the job's
`submittedBy` differs from the caller key's tenant identity
`public:<label or anonymous>` — in particular for any submitter identity
different from the caller's — and on a match returns the job with
`submittedBy` elided; keys that share a label share an identity and can read
each other's jobs. -/
theorem public_job_get_tenant_isolation (s : CoordinatorState) (apiKey : PublicApiKey)
    (jobId : String) (job : JobRecord)
    (hFound : s.jobs.find? (fun j => j.id == jobId) = some job) :
    (job.submittedBy ≠ some (toPublicSubmitterId apiKey) →
      publicJobGetHandler s apiKey jobId = PublicJobGetResult.notFound) ∧
    (job.submittedBy = some (toPublicSubmitterId apiKey) →
      publicJobGetHandler s apiKey jobId
        = PublicJobGetResult.ok (toPublicJobResponse job)) ∧
    (∀ submitter : PublicApiKey,
      toPublicSubmitterId submitter ≠ toPublicSubmitterId apiKey →
      job.submittedBy = some (toPublicSubmitterId submitter) →
      publicJobGetHandler s apiKey jobId = PublicJobGetResult.notFound) := by
  refine ⟨?_, ?_, ?_⟩
  · intro hne
    simp [publicJobGetHandler, hFound, hne]
  · intro heq
    simp [publicJobGetHandler, hFound, heq]
  · intro submitter hne heq
    simp [publicJobGetHandler, hFound, heq, hne]

/-- Witness for the amended claim C8: the submitting key itself reads its job
back with `submittedBy` elided. -/
theorem public_job_get_tenant_isolation_witness :
    publicJobGetHandler exStatePublic exKey1 ("jp")
      = PublicJobGetResult.ok (toPublicJobResponse exJobPublic) :=
  (public_job_get_tenant_isolation exStatePublic exKey1 ("jp") exJobPublic
    (by decide)).2.1 (by decide)

end Skyclaw
